import Mathlib

/-!
Verification of the 2048-Solver repository (`game2048.py`, `ntuple_network.py`,
`train.py`) against its natural-language specification.

The Python sources are shallowly embedded below: boards are `List (List Nat)`
(each cell 0 or a power of two), scores are `Nat`, network weights are sparse
tables modelled as total functions `Nat → ℚ` defaulting to 0 (a Python dict
read through `.get(k, 0.0)`), and the two sources of randomness
(`random.choice` over the empty cells and the 2-vs-4 coin) are passed in as
explicit parameters `pick : Nat` (the chosen index, taken modulo the number of
empty cells) and `tile4 : Bool` (`true` places a 4, `false` a 2).
-/

namespace Game2048

/-- Reads one board cell; out-of-range reads default to `0`
(`board[row][col]` in the source is always in range on well-formed boards). -/
def cell (b : List (List Nat)) (i j : Nat) : Nat := (b.getD i []).getD j 0

/-- Writes one board cell (`self.board[i][j] = v`). -/
def set_cell (b : List (List Nat)) (i j v : Nat) : List (List Nat) :=
  b.set i ((b.getD i []).set j v)

/-- The data-model invariant: the board is an `n × n` grid. -/
def BoardWF (n : Nat) (b : List (List Nat)) : Prop :=
  b.length = n ∧ ∀ row ∈ b, row.length = n

instance (n : Nat) (b : List (List Nat)) : Decidable (BoardWF n b) := by
  unfold BoardWF; infer_instance

/-- The list of empty cells scanned row-major, as in `add_random_tile`:
`for i in range(n): for j in range(n): if board[i][j] == 0: append (i, j)`. -/
def empty_cells (n : Nat) (b : List (List Nat)) : List (Nat × Nat) :=
  (List.range n).flatMap fun i =>
    (List.range n).filterMap fun j =>
      if cell b i j = 0 then some (i, j) else none

/-- `Game2048.add_random_tile`: if any empty cell exists, set one of them
(chosen by `pick`, standing for `random.choice`) to 2 or 4 (per `tile4`,
standing for `random.random() < 0.9`); otherwise do nothing. -/
def add_random_tile (n : Nat) (b : List (List Nat)) (pick : Nat) (tile4 : Bool) :
    List (List Nat) :=
  let ec := empty_cells n b
  if ec.isEmpty then b
  else
    let ij := ec.getD (pick % ec.length) (0, 0)
    set_cell b ij.1 ij.2 (if tile4 then 4 else 2)

/-- The merging `while` loop of `Game2048.merge_row_left`, acting on the
zero-free row: scan left to right; when two adjacent entries are equal,
replace them by their double (recording it in the score gain) and resume the
scan after the merged entry (`i += 1` after the `pop`), so a merged tile is
never merged again in the same move. -/
def merge_core : List Nat → List Nat × Nat
  | [] => ([], 0)
  | [x] => ([x], 0)
  | x :: y :: rest =>
    if x = y then
      let r := merge_core rest
      (x * 2 :: r.1, r.2 + x * 2)
    else
      let r := merge_core (y :: rest)
      (x :: r.1, r.2)

/-- `Game2048.merge_row_left`: drop zeros preserving order, merge adjacent
equal pairs left-to-right, pad with zeros back to `board_size`. Returns the
new row and the score increase. -/
def merge_row_left (n : Nat) (row : List Nat) : List Nat × Nat :=
  let new_row := row.filter (fun i => i != 0)
  let r := merge_core new_row
  (r.1 ++ List.replicate (n - r.1.length) 0, r.2)

/-- `Game2048.reverse`: reverse each row (`row[::-1]`). -/
def reverse_board (b : List (List Nat)) : List (List Nat) := b.map List.reverse

/-- `Game2048.transpose` (`zip(*board)`), written index-wise; on an `n × n`
board this is exactly the transposition `zip` computes. -/
def transpose_board (n : Nat) (b : List (List Nat)) : List (List Nat) :=
  (List.range n).map fun j => b.map fun row => row.getD j 0

/-- The per-direction loop shared by the four branches of `make_move`:
merge row `i` of the (already pre-transformed) board for `i in range(n)`,
collecting the new rows and the total score increase. -/
def move_rows (n : Nat) (b : List (List Nat)) : List (List Nat) × Nat :=
  ((List.range n).map fun i => (merge_row_left n (b.getD i [])).1,
   ((List.range n).map fun i => (merge_row_left n (b.getD i [])).2).sum)

/-- The pure board transform of `Game2048.make_move` before the random spawn:
the post-merge board for the given direction together with the score gain.
A direction outside the four strings takes none of the branches and leaves
the board and score alone. -/
def move_board (n : Nat) (direction : String) (b : List (List Nat)) :
    List (List Nat) × Nat :=
  if direction = "left" then move_rows n b
  else if direction = "right" then
    let r := move_rows n (reverse_board b)
    (reverse_board r.1, r.2)
  else if direction = "up" then
    let r := move_rows n (transpose_board n b)
    (transpose_board n r.1, r.2)
  else if direction = "down" then
    let r := move_rows n (reverse_board (transpose_board n b))
    (transpose_board n (reverse_board r.1), r.2)
  else (b, 0)

/-- `Game2048.has_valid_moves`: any empty cell, or any horizontally or
vertically adjacent equal pair. -/
def has_valid_moves (n : Nat) (b : List (List Nat)) : Bool :=
  b.any (fun row => row.contains 0) ||
  (List.range n).any fun i => (List.range n).any fun j =>
    (decide (j < n - 1) && (cell b i j == cell b i (j + 1))) ||
    (decide (i < n - 1) && (cell b i j == cell b (i + 1) j))

/-- The mutable state of a `Game2048` object. -/
structure GameState where
  board_size : Nat
  board : List (List Nat)
  score : Nat
  game_over : Bool
deriving DecidableEq, Repr

/-- `Game2048.make_move`: no-op returning `false` on a terminal state;
otherwise merge in the given direction, add the merge gains to the score,
spawn one random tile only if the board changed, re-derive the terminal flag
(`game_over` is set when no valid move remains), and return whether the board
changed. `pick`/`tile4` stand for the spawn's randomness. -/
def make_move (g : GameState) (direction : String) (pick : Nat) (tile4 : Bool) :
    GameState × Bool :=
  if g.game_over then (g, false)
  else
    let n := g.board_size
    let mv := move_board n direction g.board
    let changed : Bool := decide (¬ g.board = mv.1)
    let board2 := if changed then add_random_tile n mv.1 pick tile4 else mv.1
    let over : Bool := !has_valid_moves n board2
    ({ g with board := board2, score := g.score + mv.2, game_over := over }, changed)

end Game2048

namespace NTuple

open Game2048

/-- Floor base-2 logarithm by repeated halving, with structural fuel (the
fuel `v` always suffices since `log2 v < v` for `v ≥ 1`). -/
def log2_fuel : Nat → Nat → Nat
  | 0, _ => 0
  | fuel + 1, v => if 2 ≤ v then log2_fuel fuel (v / 2) + 1 else 0

/-- The tile exponent used by `get_pattern_index`:
`int(math.log2(tile_value)) if tile_value > 0 else 0`, i.e. the floor base-2
logarithm of the tile value (exact on the powers of two the board invariant
allows), and 0 for an empty cell. -/
def tile_power (v : Nat) : Nat := if 0 < v then log2_fuel v v else 0

/-- The accumulating loop of `NTupleNetwork.get_pattern_index`:
`for i, (row, col) in enumerate(tuple_coords): pattern += power * max_power ** i`. -/
def pattern_go (maxp : Nat) (board : List (List Nat)) :
    List (Nat × Nat) → Nat → Nat → Nat
  | [], _, pattern => pattern
  | rc :: rest, i, pattern =>
    pattern_go maxp board rest (i + 1)
      (pattern + tile_power (cell board rc.1 rc.2) * maxp ^ i)

/-- `NTupleNetwork.get_pattern_index`: encode the tile exponents along the
tuple's coordinates as one integer in base `max_power`. -/
def get_pattern_index (maxp : Nat) (board : List (List Nat))
    (coords : List (Nat × Nat)) : Nat :=
  pattern_go maxp board coords 0 0

/-- `NTupleNetwork._create_tuples`: the `n` horizontal rows, the `n` vertical
columns, and the `(n-1)²` overlapping 2×2 squares, in that order. -/
def create_tuples (n : Nat) : List (List (Nat × Nat)) :=
  ((List.range n).map fun i => (List.range n).map fun j => (i, j)) ++
  ((List.range n).map fun j => (List.range n).map fun i => (i, j)) ++
  ((List.range (n - 1)).flatMap fun i =>
    (List.range (n - 1)).map fun j => [(i, j), (i, j + 1), (i + 1, j), (i + 1, j + 1)])

/-- Total number of empty cells, `sum(row.count(0) for row in board)`. -/
def count_empty (b : List (List Nat)) : Nat := (b.map fun row => row.count 0).sum

/-- `max(max(row) for row in board)`; Python's `max` on the nonempty rows of a
nonempty board agrees with folding `max` from 0 since all cells are ≥ 0. -/
def board_max (b : List (List Nat)) : Nat :=
  (b.map fun row => row.foldr max 0).foldr max 0

/-- `all(tiles[j] <= tiles[j+1] for j in range(len(tiles) - 1))`. -/
def nondecr : List Nat → Bool
  | [] => true
  | [_] => true
  | a :: b :: r => decide (a ≤ b) && nondecr (b :: r)

/-- `all(tiles[j] >= tiles[j+1] for j in range(len(tiles) - 1))`. -/
def nonincr : List Nat → Bool
  | [] => true
  | [_] => true
  | a :: b :: r => decide (b ≤ a) && nonincr (b :: r)

/-- The monotonicity bonus of `NTupleNetwork.evaluate` (a Python `int`):
50 per row and per column whose nonzero tiles are entirely non-decreasing or
non-increasing (lines with at most one nonzero tile contribute nothing). -/
def monotonicity (n : Nat) (b : List (List Nat)) : Nat :=
  ((List.range n).map fun i =>
    let row_tiles := (b.getD i []).filter fun v => decide (0 < v)
    let column := (List.range n).map fun j => cell b j i
    let col_tiles := column.filter fun v => decide (0 < v)
    (if 1 < row_tiles.length ∧ (nondecr row_tiles || nonincr row_tiles) = true
      then 50 else 0) +
    (if 1 < col_tiles.length ∧ (nondecr col_tiles || nonincr col_tiles) = true
      then 50 else 0)).sum

/-- The corner bonus of `NTupleNetwork.evaluate` (a Python `int`): if the
highest tile is at least 64 and sits in a corner, add it once (first matching
corner only). -/
def corner_bonus (n : Nat) (b : List (List Nat)) : Nat :=
  let corners := [(0, 0), (0, n - 1), (n - 1, 0), (n - 1, n - 1)]
  let highest := board_max b
  if 64 ≤ highest then
    match corners.find? (fun rc => cell b rc.1 rc.2 == highest) with
    | some _ => highest
    | none => 0
  else 0

/-- An `NTupleNetwork`. Each weight table (a Python dict read through
`.get(pattern, 0.0)` and written pointwise) is modelled as a total function
`Nat → ℚ`; `_initialize_weights` makes one all-zero table per tuple, so
`weights.length = tuples.length` throughout. -/
structure NTupleNetwork where
  board_size : Nat
  max_power : Nat
  tuples : List (List (Nat × Nat))
  weights : List (Nat → ℚ)

/-- A fresh network as built by `NTupleNetwork.__init__(4, 16)`. -/
def init_network : NTupleNetwork :=
  { board_size := 4, max_power := 16, tuples := create_tuples 4,
    weights := (create_tuples 4).map fun _ => fun _ => 0 }

/-- `NTupleNetwork.evaluate`: the learned per-tuple weights at the board's
pattern indices, plus 50 per empty cell, plus the monotonicity and corner
bonuses. -/
def evaluate (net : NTupleNetwork) (board : List (List Nat)) : ℚ :=
  ((List.range net.tuples.length).map fun t =>
    (net.weights.getD t fun _ => 0)
      (get_pattern_index net.max_power board (net.tuples.getD t []))).sum
  + (count_empty board : ℚ) * 50
  + (monotonicity net.board_size board : ℚ)
  + (corner_bonus net.board_size board : ℚ)

/-- `NTupleSolver.get_best_move`: `None` on a terminal game; otherwise
simulate each direction in the fixed order on a copy of the game, evaluate
the copy's board when the move changed it, and keep the strictly best move.
`none` as the running best value plays `float('-inf')`; `ch` supplies each
simulated move's spawn randomness. -/
def get_best_move (net : NTupleNetwork) (g : GameState)
    (ch : String → Nat × Bool) : Option String :=
  if g.game_over then none
  else
    (["up", "down", "left", "right"].foldl
      (fun (acc : Option String × Option ℚ) move =>
        let c := ch move
        let sim := make_move g move c.1 c.2
        if sim.2 then
          let value := evaluate net sim.1.board
          match acc.2 with
          | none => (some move, some value)
          | some bv => if bv < value then (some move, some value) else acc
        else acc)
      (none, none)).1

end NTuple

namespace Train

open Game2048 NTuple

/-- `TDLearner.get_reward`: score delta, plus the new maximum tile when it
strictly exceeds the previous maximum, plus 10 per empty cell of the current
board. -/
def get_reward (prev_score current_score : Nat)
    (prev_board current_board : List (List Nat)) : Int :=
  let score_reward : Int := (current_score : Int) - (prev_score : Int)
  let prev_max_tile := board_max prev_board
  let current_max_tile := board_max current_board
  let tile_reward : Int :=
    if prev_max_tile < current_max_tile then (current_max_tile : Int) else 0
  let empty_cells := count_empty current_board
  score_reward + tile_reward + (empty_cells : Int) * 10

/-- The reward exactly as `TDLearner.train` invokes it:
`self.get_reward(self.game.score, self.game.score, prev_afterstate,
best_afterstate)` — the same not-yet-updated score is passed as both the
previous and the current score. -/
def train_reward (score : Nat) (prev_afterstate best_afterstate : List (List Nat)) : Int :=
  get_reward score score prev_afterstate best_afterstate

/-- The SELECT phase of `TDLearner.train` (lines 58–73): simulate the four
directions on copies of the game, evaluate `game_copy.board` for each move
that changed the board, and track the best move, its stored board
(`afterstate = game_copy.board`) and its value, with `none` standing for the
initial `float('-inf')` / `None` values. -/
def td_select (net : NTupleNetwork) (g : GameState) (ch : String → Nat × Bool) :
    Option String × Option (List (List Nat)) × Option ℚ :=
  ["up", "down", "left", "right"].foldl
    (fun (acc : Option String × Option (List (List Nat)) × Option ℚ) move =>
      let c := ch move
      let sim := make_move g move c.1 c.2
      if sim.2 then
        let value := evaluate net sim.1.board
        match acc.2.2 with
        | none => (some move, some sim.1.board, some value)
        | some bv =>
          if bv < value then (some move, some sim.1.board, some value) else acc
      else acc)
    (none, none, none)

/-- The UPDATE phase of `TDLearner.train` (lines 79–93), run when a previous
afterstate exists: compute the reward (with the game's current score passed
twice), form `td_error = reward + gamma * best_value - prev_value`, and add
`alpha * td_error` to each tuple's weight at the previous afterstate's
pattern index. -/
def td_update_step (net : NTupleNetwork) (alpha gamma : ℚ) (score : Nat)
    (prev_afterstate best_afterstate : List (List Nat))
    (prev_value best_value : ℚ) : NTupleNetwork :=
  let reward := train_reward score prev_afterstate best_afterstate
  let td_error : ℚ := (reward : ℚ) + gamma * best_value - prev_value
  { net with
    weights := (List.range net.tuples.length).map fun t =>
      let pattern := get_pattern_index net.max_power prev_afterstate (net.tuples.getD t [])
      let w := net.weights.getD t fun _ => 0
      fun p => if p = pattern then w p + alpha * td_error else w p }

/-- `all(...)`-style character match: does `needle` begin `hay`? -/
def chars_start : List Char → List Char → Bool
  | [], _ => true
  | _ :: _, [] => false
  | a :: as, b :: bs => a == b && chars_start as bs

/-- Substring test on character lists, modelling Python's `'final' in name`. -/
def chars_sub (needle : List Char) : List Char → Bool
  | [] => needle.isEmpty
  | c :: rest => chars_start needle (c :: rest) || chars_sub needle rest

/-- Python's `str.split(sep)` for a one-character separator. -/
def split_list (sep : Char) : List Char → List (List Char)
  | [] => [[]]
  | c :: rest =>
    let r := split_list sep rest
    if c == sep then [] :: r
    else (c :: r.headD []) :: r.tail

/-- Python's `int(s)` on the digit strings checkpoint names embed: the value
of a nonempty all-digit string, `none` otherwise (a `ValueError` in the
source, caught and skipped by `find_latest_checkpoint`). -/
def digits_to_nat : List Char → Option Nat
  | [] => none
  | cs =>
    if cs.all (fun c => c.isDigit)
    then some (cs.foldl (fun a c => a * 10 + (c.toNat - 48)) 0)
    else none

/-- The episode number `find_latest_checkpoint` parses from a basename:
`int(os.path.basename(cp).split('_')[2].split('.')[0])`, with `none` for the
`IndexError`/`ValueError` cases the source catches. -/
def parse_episode (name : String) : Option Nat :=
  match (split_list '_' name.data).get? 2 with
  | none => none
  | some part => digits_to_nat ((split_list '.' part).headD [])

/-- `find_latest_checkpoint`, applied to the basenames the glob returned:
`(None, 0)` when there are no files at all; otherwise scan, skipping any name
containing `'final'` and any name whose episode number fails to parse, and
keep the checkpoint with the strictly largest episode number (starting from
`latest_episode = -1`). -/
def find_latest_checkpoint (files : List String) : Option String × Int :=
  if files.isEmpty then (none, 0)
  else
    files.foldl
      (fun (acc : Option String × Int) cp =>
        if chars_sub "final".data cp.data then acc
        else
          match parse_episode cp with
          | none => acc
          | some e => if acc.2 < (e : Int) then (some cp, (e : Int)) else acc)
      (none, -1)

/-- The number of training episodes `run_training` performs: with `resume`,
start from the latest checkpoint's episode (0 when none is found), train the
remaining `episodes - start_episode` episodes, and train none when that
remainder is ≤ 0. (`TDLearner.train(num_episodes)` iterates
`for episode in range(1, num_episodes + 1)`, i.e. exactly its argument many
episodes for a positive argument.) -/
def run_training_episode_count (episodes : Int) (resume : Bool)
    (files : List String) : Int :=
  let start_episode : Int :=
    if resume then
      match find_latest_checkpoint files with
      | (some _, e) => e
      | (none, _) => 0
    else 0
  let remaining := episodes - start_episode
  if remaining ≤ 0 then 0 else remaining

end Train

namespace Spec

open Game2048 NTuple

/-- The spec's terminal-board condition: every cell is nonzero and no two
horizontally or vertically adjacent cells hold equal values. -/
def dead_board_spec (n : Nat) (b : List (List Nat)) : Prop :=
  (∀ i < n, ∀ j < n, cell b i j ≠ 0) ∧
  (∀ i < n, ∀ j < n, j + 1 < n → cell b i j ≠ cell b i (j + 1)) ∧
  (∀ i < n, ∀ j < n, i + 1 < n → cell b i j ≠ cell b (i + 1) j)

instance (n : Nat) (b : List (List Nat)) : Decidable (dead_board_spec n b) := by
  unfold dead_board_spec; infer_instance

/-- The exponent digits a tuple reads off a board, in tuple order. -/
def pattern_digits (board : List (List Nat)) (coords : List (Nat × Nat)) : List Nat :=
  coords.map fun rc => tile_power (cell board rc.1 rc.2)

/-- Mixed-radix value of the digits with the FIRST digit least significant
(the first coordinate's exponent is multiplied by `maxp ^ 0`). -/
def pattern_index_lsb (maxp : Nat) (board : List (List Nat))
    (coords : List (Nat × Nat)) : Nat :=
  ((pattern_digits board coords).enum.map fun p => p.2 * maxp ^ p.1).sum

/-- Modelled from the spec: mixed-radix value with the FIRST digit MOST
significant ("most significant digit first in tuple order"), for comparison
with the source's `get_pattern_index`. -/
def pattern_index_msb (maxp : Nat) (board : List (List Nat))
    (coords : List (Nat × Nat)) : Nat :=
  ((pattern_digits board coords).enum.map fun p =>
    p.2 * maxp ^ (coords.length - 1 - p.1)).sum

/-- The values of the tiles a merge pass creates, read off the zero-free row
by the same left-to-right scan `merge_core` performs. -/
def merged_tiles (l : List Nat) : List Nat :=
  match l with
  | [] => []
  | [_] => []
  | x :: y :: rest =>
    if x = y then x * 2 :: merged_tiles rest else merged_tiles (y :: rest)

/-- A row with no zeros and no two adjacent equal entries, of full length:
row reduction leaves such a row untouched. -/
def RowGood (n : Nat) (r : List Nat) : Prop :=
  r.length = n ∧ (∀ a ∈ r, a ≠ 0) ∧ r.Chain' (· ≠ ·)

/-- Test fixture: the opening-style board with one mergeable pair. -/
def B0 : List (List Nat) := [[2, 2, 0, 0], [0, 0, 0, 0], [0, 0, 0, 0], [0, 0, 0, 0]]

/-- Test fixture: the game state holding `B0`. -/
def g0 : GameState := ⟨4, B0, 0, false⟩

/-- The board `td_select` stores for `g0` when every simulated spawn picks the
first empty cell and a 2: the post-merge board for "down" with the spawned 2
at the top-left corner. -/
def Bd : List (List Nat) := [[2, 0, 0, 0], [0, 0, 0, 0], [0, 0, 0, 0], [2, 2, 0, 0]]

/-- Post-spawn board for the simulated "left" move on `g0`. -/
def Bl : List (List Nat) := [[4, 2, 0, 0], [0, 0, 0, 0], [0, 0, 0, 0], [0, 0, 0, 0]]

/-- Post-spawn board for the simulated "right" move on `g0`. -/
def Br : List (List Nat) := [[2, 0, 0, 4], [0, 0, 0, 0], [0, 0, 0, 0], [0, 0, 0, 0]]

/-- Test fixture: a full board with no adjacent equal tiles (a dead board). -/
def DB4 : List (List Nat) := [[2, 4, 2, 4], [4, 2, 4, 2], [2, 4, 2, 4], [4, 2, 4, 2]]

/-- Test fixture: a one-tuple network with a single all-zero weight table. -/
def net1 : NTupleNetwork :=
  { board_size := 4, max_power := 16, tuples := [[(0, 0)]], weights := [fun _ => 0] }

/-- Test fixture: a board whose only tile is a 4 at the origin. -/
def P4 : List (List Nat) := [[4, 0, 0, 0], [0, 0, 0, 0], [0, 0, 0, 0], [0, 0, 0, 0]]

/-- Test fixture: checkpoint basenames for the resume scenario — episodes 5000
and 10000, a `final` checkpoint, a parseable name containing `final`, and an
unparseable name. -/
def files9 : List String :=
  ["ntuple_weights_5000.pkl", "ntuple_weights_10000.pkl",
   "ntuple_weights_final.pkl", "final_weights_99999.pkl",
   "ntuple_weights_abc.pkl"]

end Spec
namespace Game2048

theorem merge_core_length_le : ∀ l : List Nat, (merge_core l).1.length ≤ l.length
  | [] => by simp [merge_core]
  | [x] => by simp [merge_core]
  | x :: y :: rest => by
    by_cases h : x = y
    · have ih := merge_core_length_le rest
      simp [merge_core, h]; omega
    · have ih := merge_core_length_le (y :: rest)
      simp [merge_core, h] at ih ⊢; omega

theorem merge_core_gain_ne : ∀ l : List Nat, (merge_core l).2 ≠ 0 → (merge_core l).1.length < l.length
  | [] => by simp [merge_core]
  | [x] => by simp [merge_core]
  | x :: y :: rest => by
    by_cases h : x = y
    · have hle := merge_core_length_le rest
      simp [merge_core, h]; omega
    · intro hs
      have ih := merge_core_gain_ne (y :: rest)
      simp [merge_core, h] at hs ih ⊢
      omega

theorem merge_core_nonzero : ∀ l : List Nat, (∀ a ∈ l, a ≠ 0) → ∀ a ∈ (merge_core l).1, a ≠ 0
  | [] => by simp [merge_core]
  | [x] => by simp [merge_core]
  | x :: y :: rest => by
    intro h a ha
    by_cases hxy : x = y
    · simp [merge_core, hxy] at ha
      rcases ha with rfl | ha
      · have : y ≠ 0 := h y (by simp)
        omega
      · exact merge_core_nonzero rest (fun a ha' => h a (by simp [ha'])) a ha
    · simp [merge_core, hxy] at ha
      rcases ha with rfl | ha
      · exact h a (by simp)
      · exact merge_core_nonzero (y :: rest) (fun a ha' => h a (by simp at ha' ⊢; tauto)) a ha

theorem merge_core_sum : ∀ l : List Nat, (merge_core l).1.sum = l.sum
  | [] => by simp [merge_core]
  | [x] => by simp [merge_core]
  | x :: y :: rest => by
    by_cases h : x = y
    · have ih := merge_core_sum rest
      simp [merge_core, h, ih]; omega
    · have ih := merge_core_sum (y :: rest)
      simp [merge_core, h] at ih ⊢; omega

theorem merge_core_gain_merged : ∀ l : List Nat, (merge_core l).2 = (Spec.merged_tiles l).sum
  | [] => by simp [merge_core, Spec.merged_tiles]
  | [x] => by simp [merge_core, Spec.merged_tiles]
  | x :: y :: rest => by
    by_cases h : x = y
    · have ih := merge_core_gain_merged rest
      simp [merge_core, Spec.merged_tiles, h, ih]; omega
    · have ih := merge_core_gain_merged (y :: rest)
      simp [merge_core, Spec.merged_tiles, h, ih]

theorem merge_core_chain : ∀ l : List Nat, l.Chain' (· ≠ ·) → merge_core l = (l, 0)
  | [] => by simp [merge_core]
  | [x] => by simp [merge_core]
  | x :: y :: rest => by
    intro hc
    rw [List.chain'_cons] at hc
    have ih := merge_core_chain (y :: rest) hc.2
    simp [merge_core, hc.1, ih]

theorem filter_nz_eq (l : List Nat) (h : ∀ a ∈ l, a ≠ 0) : l.filter (fun i => i != 0) = l :=
  List.filter_eq_self.mpr (fun a ha => by simpa using h a ha)

theorem sum_filter_nz (l : List Nat) : (l.filter (fun i => i != 0)).sum = l.sum := by
  induction l with
  | nil => rfl
  | cons a t ih => by_cases h : a = 0 <;> simp [List.filter_cons, h, ih]

theorem mem_filter_nz {l : List Nat} {a : Nat} (ha : a ∈ l.filter (fun i => i != 0)) : a ≠ 0 := by
  have := List.of_mem_filter ha
  simpa using this

theorem filter_append_replicate_zero (m : List Nat) (k : Nat) (h : ∀ a ∈ m, a ≠ 0) :
    (m ++ List.replicate k 0).filter (fun i => i != 0) = m := by
  rw [List.filter_append, filter_nz_eq m h]
  have : (List.replicate k 0).filter (fun i => i != 0) = [] := by
    apply List.filter_eq_nil_iff.mpr
    intro a ha
    simp [List.eq_of_mem_replicate ha]
  simp [this]

theorem merge_row_left_length (n : Nat) (row : List Nat) (h : row.length ≤ n) :
    (merge_row_left n row).1.length = n := by
  have h1 : (merge_core (row.filter (fun i => i != 0))).1.length ≤ row.length :=
    le_trans (merge_core_length_le _) (List.length_filter_le _ _)
  simp [merge_row_left]
  omega

theorem merge_row_left_sum (n : Nat) (row : List Nat) :
    (merge_row_left n row).1.sum = row.sum := by
  simp [merge_row_left, merge_core_sum, sum_filter_nz, List.sum_replicate]

theorem merge_row_left_gain_merged (n : Nat) (row : List Nat) :
    (merge_row_left n row).2 = (Spec.merged_tiles (row.filter (fun i => i != 0))).sum := by
  simp [merge_row_left, merge_core_gain_merged]

theorem merge_row_left_id (n : Nat) (row : List Nat) (hg : Spec.RowGood n row) :
    merge_row_left n row = (row, 0) := by
  obtain ⟨hlen, hnz, hchain⟩ := hg
  simp [merge_row_left, filter_nz_eq row hnz, merge_core_chain row hchain, hlen]

theorem merge_row_left_fixed (n : Nat) (row : List Nat)
    (h : (merge_row_left n row).1 = row) : (merge_row_left n row).2 = 0 := by
  by_contra hs
  set nz := row.filter (fun i => i != 0) with hnz
  have hmnz : ∀ a ∈ (merge_core nz).1, a ≠ 0 :=
    merge_core_nonzero nz (fun a ha => mem_filter_nz ha)
  have hfilter : ((merge_core nz).1 ++
      List.replicate (n - (merge_core nz).1.length) 0).filter (fun i => i != 0) =
      (merge_core nz).1 := filter_append_replicate_zero _ _ hmnz
  have hrow : (merge_row_left n row).1 = (merge_core nz).1 ++
      List.replicate (n - (merge_core nz).1.length) 0 := by simp [merge_row_left]
  have hm : (merge_core nz).1 = nz := by
    rw [← hfilter, ← hrow, h]
  have hlt : (merge_core nz).1.length < nz.length := by
    apply merge_core_gain_ne
    simpa [merge_row_left] using hs
  rw [hm] at hlt
  omega

end Game2048
namespace Game2048

theorem range_map_getD {α : Type} (d : α) : ∀ l : List α,
    (List.range l.length).map (fun i => l.getD i d) = l
  | [] => by simp
  | a :: t => by
    rw [List.length_cons, List.range_succ_eq_map, List.map_cons, List.map_map]
    simp only [List.getD_cons_zero, Function.comp_def, List.getD_cons_succ]
    rw [range_map_getD d t]

theorem reverse_board_involutive (b : List (List Nat)) :
    reverse_board (reverse_board b) = b := by
  simp [reverse_board, List.map_map, Function.comp_def]

theorem reverse_board_length (b : List (List Nat)) :
    (reverse_board b).length = b.length := by simp [reverse_board]

theorem reverse_board_wf {n : Nat} {b : List (List Nat)} (hwf : BoardWF n b) :
    BoardWF n (reverse_board b) := by
  refine ⟨by simp [reverse_board, hwf.1], ?_⟩
  intro row hrow
  simp only [reverse_board, List.mem_map] at hrow
  obtain ⟨r, hr, rfl⟩ := hrow
  simpa using hwf.2 r hr

theorem transpose_board_length (n : Nat) (b : List (List Nat)) :
    (transpose_board n b).length = n := by simp [transpose_board]

theorem transpose_board_wf {n : Nat} {b : List (List Nat)} (hwf : BoardWF n b) :
    BoardWF n (transpose_board n b) := by
  refine ⟨by simp [transpose_board], ?_⟩
  intro row hrow
  simp only [transpose_board, List.mem_map] at hrow
  obtain ⟨j, hj, rfl⟩ := hrow
  simp [hwf.1]

theorem getD_map_row (f : List Nat → List Nat) (b : List (List Nat)) (i : Nat)
    (h : i < b.length) : (b.map f).getD i [] = f (b.getD i []) := by
  rw [List.getD_eq_getElem _ _ (by simpa using h), List.getD_eq_getElem _ _ h,
    List.getElem_map]

theorem transpose_board_getD (n : Nat) (b : List (List Nat)) (j : Nat) (hj : j < n) :
    (transpose_board n b).getD j [] = b.map (fun row => row.getD j 0) := by
  rw [transpose_board, List.getD_eq_getElem _ _ (by simpa using hj)]
  simp

end Game2048
namespace Game2048

theorem transpose_transpose {n : Nat} {b : List (List Nat)} (hwf : BoardWF n b) :
    transpose_board n (transpose_board n b) = b := by
  have hbl : b.length = n := hwf.1
  apply List.ext_getElem
  · simp [transpose_board, hbl]
  · intro i h1 h2
    have hin : i < n := by simpa [transpose_board] using h1
    rw [← List.getD_eq_getElem _ ([] : List Nat) h1, transpose_board_getD n _ i hin]
    apply List.ext_getElem
    · simp [transpose_board, hwf.2 _ (List.getElem_mem h2)]
    · intro j hj1 hj2
      have hjn : j < n := by simpa [transpose_board] using hj1
      rw [List.getElem_map]
      have hjt : j < (transpose_board n b).length := by
        simpa [transpose_board] using hjn
      rw [show (transpose_board n b)[j] = (transpose_board n b).getD j [] from
        (List.getD_eq_getElem _ _ _).symm]
      rw [transpose_board_getD n b j hjn]
      rw [List.getD_eq_getElem _ _ (by simpa [hbl] using hin)]
      rw [List.getElem_map]
      exact List.getD_eq_getElem _ _ (by rw [hwf.2 _ (List.getElem_mem h2)]; exact hjn)

end Game2048
namespace Game2048

theorem board_wf_getD_length {n : Nat} {b : List (List Nat)} (hwf : BoardWF n b)
    {i : Nat} (hi : i < n) : (b.getD i []).length = n := by
  have hib : i < b.length := by rw [hwf.1]; exact hi
  rw [List.getD_eq_getElem _ _ hib]
  exact hwf.2 _ (List.getElem_mem hib)

theorem move_rows_fst_length (n : Nat) (b : List (List Nat)) :
    (move_rows n b).1.length = n := by simp [move_rows]

theorem move_rows_getD (n : Nat) (b : List (List Nat)) {i : Nat} (hi : i < n) :
    (move_rows n b).1.getD i [] = (merge_row_left n (b.getD i [])).1 := by
  rw [move_rows, List.getD_eq_getElem _ _ (by simpa using hi)]
  simp

theorem move_rows_wf (n : Nat) (b : List (List Nat))
    (h : ∀ i < n, (b.getD i []).length ≤ n) : BoardWF n (move_rows n b).1 := by
  refine ⟨move_rows_fst_length n b, ?_⟩
  intro row hrow
  simp only [move_rows, List.mem_map, List.mem_range] at hrow
  obtain ⟨i, hi, rfl⟩ := hrow
  exact merge_row_left_length n _ (h i hi)

theorem move_rows_fix (n : Nat) (b : List (List Nat))
    (hfix : (move_rows n b).1 = b) : (move_rows n b).2 = 0 := by
  have hrow : ∀ i < n, (merge_row_left n (b.getD i [])).1 = b.getD i [] := by
    intro i hi
    conv_rhs => rw [← hfix]
    exact (move_rows_getD n b hi).symm
  apply List.sum_eq_zero
  intro x hx
  simp only [List.mem_map, List.mem_range] at hx
  obtain ⟨i, hi, rfl⟩ := hx
  exact merge_row_left_fixed n _ (hrow i hi)

theorem move_rows_id (n : Nat) (b : List (List Nat)) (hlen : b.length = n)
    (hgood : ∀ i < n, Spec.RowGood n (b.getD i [])) : move_rows n b = (b, 0) := by
  unfold move_rows
  refine Prod.ext ?_ ?_
  · show (List.range n).map (fun i => (merge_row_left n (b.getD i [])).1) = b
    have : ∀ i ∈ List.range n,
        (merge_row_left n (b.getD i [])).1 = b.getD i [] := by
      intro i hi
      rw [merge_row_left_id n _ (hgood i (List.mem_range.mp hi))]
    rw [List.map_congr_left this, ← hlen, range_map_getD]
  · show ((List.range n).map (fun i => (merge_row_left n (b.getD i [])).2)).sum = 0
    apply List.sum_eq_zero
    intro x hx
    simp only [List.mem_map, List.mem_range] at hx
    obtain ⟨i, hi, rfl⟩ := hx
    rw [merge_row_left_id n _ (hgood i hi)]

end Game2048
namespace Game2048

theorem transpose_board_wf_of_len {n : Nat} {x : List (List Nat)} (h : x.length = n) :
    BoardWF n (transpose_board n x) := by
  refine ⟨transpose_board_length n x, ?_⟩
  intro row hrow
  simp only [transpose_board, List.mem_map] at hrow
  obtain ⟨j, hj, rfl⟩ := hrow
  simp [h]

theorem move_board_fix_gain (n : Nat) (d : String) (b : List (List Nat))
    (hfix : (move_board n d b).1 = b) :
    (move_board n d b).2 = 0 := by
  unfold move_board at hfix ⊢
  split_ifs at hfix ⊢ with h1 h2 h3 h4
  · exact move_rows_fix n b hfix
  · -- right
    have h : (move_rows n (reverse_board b)).1 = reverse_board b := by
      have := congrArg reverse_board hfix
      rwa [reverse_board_involutive] at this
    exact move_rows_fix n (reverse_board b) h
  · -- up: the fixpoint equation itself forces the board to be n × n,
    -- since a transposed board always is
    have hwf : BoardWF n b := by
      rw [← hfix]
      exact transpose_board_wf_of_len (move_rows_fst_length n (transpose_board n b))
    have hTwf : BoardWF n (transpose_board n b) := transpose_board_wf hwf
    have hawf : BoardWF n (move_rows n (transpose_board n b)).1 :=
      move_rows_wf n _ (fun i hi => le_of_eq (board_wf_getD_length hTwf hi))
    have h : (move_rows n (transpose_board n b)).1 = transpose_board n b := by
      have := congrArg (transpose_board n) hfix
      rwa [transpose_transpose hawf] at this
    exact move_rows_fix n (transpose_board n b) h
  · -- down: as for up, the fixpoint equation forces the board to be n × n
    have hwf : BoardWF n b := by
      rw [← hfix]
      exact transpose_board_wf_of_len
        (by rw [reverse_board_length, move_rows_fst_length])
    have hTwf : BoardWF n (transpose_board n b) := transpose_board_wf hwf
    have hpwf : BoardWF n (reverse_board (transpose_board n b)) := reverse_board_wf hTwf
    have hawf : BoardWF n (move_rows n (reverse_board (transpose_board n b))).1 :=
      move_rows_wf n _ (fun i hi => le_of_eq (board_wf_getD_length hpwf hi))
    have hrwf : BoardWF n (reverse_board (move_rows n (reverse_board (transpose_board n b))).1) :=
      reverse_board_wf hawf
    have h : (move_rows n (reverse_board (transpose_board n b))).1 =
        reverse_board (transpose_board n b) := by
      have h5 := congrArg (transpose_board n) hfix
      rw [transpose_transpose hrwf] at h5
      have h6 := congrArg reverse_board h5
      rwa [reverse_board_involutive] at h6
    exact move_rows_fix n (reverse_board (transpose_board n b)) h
  · rfl

end Game2048
namespace Game2048

theorem cell_eq {b : List (List Nat)} {i : Nat} (j : Nat) (hib : i < b.length) :
    cell b i j = b[i].getD j 0 := by
  rw [cell, List.getD_eq_getElem _ _ hib]

theorem dead_rows {n : Nat} {b : List (List Nat)} (hwf : BoardWF n b)
    (hd : Spec.dead_board_spec n b) : ∀ i < n, Spec.RowGood n (b.getD i []) := by
  intro i hi
  have hlen := board_wf_getD_length hwf hi
  refine ⟨hlen, ?_, ?_⟩
  · intro a ha
    obtain ⟨j, hj, rfl⟩ := List.mem_iff_getElem.mp ha
    have hjn : j < n := by omega
    have h := hd.1 i hi j hjn
    rwa [cell, List.getD_eq_getElem _ _ hj] at h
  · rw [List.chain'_iff_get]
    intro j hjlt
    have h1 : j < n := by omega
    have h2 : j + 1 < n := by omega
    have h := hd.2.1 i hi j h1 h2
    simp only [List.get_eq_getElem]
    have hja : j < (b.getD i []).length := by omega
    have hjb : j + 1 < (b.getD i []).length := by omega
    have e1 : cell b i j = (b.getD i [])[j] := by
      rw [cell]; exact List.getD_eq_getElem _ _ hja
    have e2 : cell b i (j + 1) = (b.getD i [])[j + 1] := by
      rw [cell]; exact List.getD_eq_getElem _ _ hjb
    rw [e1, e2] at h
    exact h

theorem dead_cols {n : Nat} {b : List (List Nat)} (hwf : BoardWF n b)
    (hd : Spec.dead_board_spec n b) :
    ∀ j < n, Spec.RowGood n ((transpose_board n b).getD j []) := by
  intro j hj
  rw [transpose_board_getD n b j hj]
  refine ⟨by simp [hwf.1], ?_, ?_⟩
  · intro a ha
    obtain ⟨r, hr, rfl⟩ := List.mem_map.mp ha
    obtain ⟨i, hib, rfl⟩ := List.mem_iff_getElem.mp hr
    have hin : i < n := by rw [← hwf.1]; exact hib
    have h := hd.1 i hin j hj
    rwa [cell_eq j hib] at h
  · rw [List.chain'_iff_get]
    intro i hilt
    have hbl : b.length = n := hwf.1
    have h1 : i < n := by simp at hilt; omega
    have h2 : i + 1 < n := by simp at hilt; omega
    have h := hd.2.2 i h1 j hj h2
    simp only [List.get_eq_getElem, List.getElem_map]
    have e1 : cell b i j = b[i].getD j 0 := cell_eq j (by omega)
    have e2 : cell b (i + 1) j = b[i + 1].getD j 0 := cell_eq j (by omega)
    rw [e1, e2] at h
    exact h

theorem rowgood_reverse {n : Nat} {r : List Nat} (h : Spec.RowGood n r) :
    Spec.RowGood n r.reverse := by
  refine ⟨by simp [h.1], fun a ha => h.2.1 a (List.mem_reverse.mp ha), ?_⟩
  rw [List.chain'_reverse]
  exact List.Chain'.imp (fun a b hab => Ne.symm hab) h.2.2

theorem move_board_dead (n : Nat) (b : List (List Nat)) (hwf : BoardWF n b)
    (hd : Spec.dead_board_spec n b) (d : String) : move_board n d b = (b, 0) := by
  have hrows := dead_rows hwf hd
  have hcols := dead_cols hwf hd
  have hrev : ∀ i < n, Spec.RowGood n ((reverse_board b).getD i []) := by
    intro i hi
    simp only [reverse_board]
    rw [getD_map_row _ _ _ (by rw [hwf.1]; exact hi)]
    exact rowgood_reverse (hrows i hi)
  have hrevT : ∀ i < n, Spec.RowGood n ((reverse_board (transpose_board n b)).getD i []) := by
    intro i hi
    simp only [reverse_board]
    rw [getD_map_row _ _ _ (by rw [transpose_board_length]; exact hi)]
    exact rowgood_reverse (hcols i hi)
  unfold move_board
  split_ifs with h1 h2 h3 h4
  · exact move_rows_id n b hwf.1 hrows
  · rw [move_rows_id n (reverse_board b) (by rw [reverse_board_length, hwf.1]) hrev]
    simp [reverse_board_involutive]
  · rw [move_rows_id n (transpose_board n b) (transpose_board_length n b) hcols]
    simp [transpose_transpose hwf]
  · rw [move_rows_id n (reverse_board (transpose_board n b))
      (by rw [reverse_board_length, transpose_board_length]) hrevT]
    simp [reverse_board_involutive, transpose_transpose hwf]
  · rfl

end Game2048
namespace Game2048

theorem any_contains_false_iff {n : Nat} {b : List (List Nat)} (hwf : BoardWF n b) :
    (b.any fun row => row.contains 0) = false ↔ (∀ i < n, ∀ j < n, cell b i j ≠ 0) := by
  rw [List.any_eq_false]
  constructor
  · intro h i hi j hj hc
    have hib : i < b.length := by rw [hwf.1]; exact hi
    have hjr : j < (b.getD i []).length := by rw [board_wf_getD_length hwf hi]; exact hj
    have hr := h (b.getD i []) (by rw [List.getD_eq_getElem _ _ hib]; exact List.getElem_mem hib)
    apply hr
    rw [List.elem_iff]
    have hc' : (b.getD i []).getD j 0 = 0 := hc
    rw [List.getD_eq_getElem _ _ hjr] at hc'
    exact hc' ▸ List.getElem_mem hjr
  · intro h row hrow hc
    obtain ⟨i, hib, rfl⟩ := List.mem_iff_getElem.mp hrow
    rw [List.elem_iff] at hc
    obtain ⟨j, hjr, hj0⟩ := List.mem_iff_getElem.mp hc
    have hin : i < n := by rw [← hwf.1]; exact hib
    have hjn : j < n := by rw [← hwf.2 _ (List.getElem_mem hib)]; exact hjr
    apply h i hin j hjn
    rw [cell_eq j hib, List.getD_eq_getElem _ _ hjr]
    exact hj0
end Game2048
namespace Game2048

theorem hvm_false_iff {n : Nat} {b : List (List Nat)} (hwf : BoardWF n b) :
    has_valid_moves n b = false ↔ Spec.dead_board_spec n b := by
  unfold has_valid_moves Spec.dead_board_spec
  rw [Bool.or_eq_false_iff, any_contains_false_iff hwf]
  simp only [List.any_eq_false, Bool.not_eq_true, List.mem_range,
    Bool.or_eq_false_iff, Bool.and_eq_false_iff, decide_eq_false_iff_not,
    beq_eq_false_iff_ne, not_lt, ne_eq]
  constructor
  · rintro ⟨h0, hadj⟩
    refine ⟨h0, ?_, ?_⟩
    · intro i hi j hj hj1 hc
      rcases (hadj i hi j hj).1 with h | h
      · omega
      · exact h hc
    · intro i hi j hj hi1 hc
      rcases (hadj i hi j hj).2 with h | h
      · omega
      · exact h hc
  · rintro ⟨h0, hh, hv⟩
    refine ⟨h0, ?_⟩
    intro i hi j hj
    constructor
    · by_cases hj1 : j + 1 < n
      · exact Or.inr (hh i hi j hj hj1)
      · exact Or.inl (by omega)
    · by_cases hi1 : i + 1 < n
      · exact Or.inr (hv i hi j hj hi1)
      · exact Or.inl (by omega)

end Game2048
namespace Game2048

theorem mem_empty_cells {n : Nat} {b : List (List Nat)} {p : Nat × Nat} :
    p ∈ empty_cells n b ↔ p.1 < n ∧ p.2 < n ∧ cell b p.1 p.2 = 0 := by
  unfold empty_cells
  rw [List.mem_flatMap]
  constructor
  · rintro ⟨i, hi, hmem⟩
    rw [List.mem_filterMap] at hmem
    obtain ⟨j, hj, hf⟩ := hmem
    by_cases hc : cell b i j = 0
    · rw [if_pos hc] at hf
      obtain rfl : (i, j) = p := by simpa using hf
      exact ⟨List.mem_range.mp hi, List.mem_range.mp hj, hc⟩
    · rw [if_neg hc] at hf
      exact absurd hf (by simp)
  · rintro ⟨h1, h2, h3⟩
    refine ⟨p.1, List.mem_range.mpr h1, List.mem_filterMap.mpr ⟨p.2, List.mem_range.mpr h2, ?_⟩⟩
    simp [h3]

theorem add_random_tile_ne {n : Nat} {b : List (List Nat)} (hwf : BoardWF n b)
    (hne : empty_cells n b ≠ []) (pick : Nat) (tile4 : Bool) :
    add_random_tile n b pick tile4 ≠ b := by
  unfold add_random_tile
  rw [if_neg (by simpa [List.isEmpty_iff] using hne)]
  intro heq
  have hlen : 0 < (empty_cells n b).length := List.length_pos.mpr hne
  have hkl : pick % (empty_cells n b).length < (empty_cells n b).length :=
    Nat.mod_lt _ hlen
  have hmem : (empty_cells n b).getD (pick % (empty_cells n b).length) (0, 0) ∈
      empty_cells n b := by
    rw [List.getD_eq_getElem _ _ hkl]; exact List.getElem_mem hkl
  rw [mem_empty_cells] at hmem
  obtain ⟨hi, hj, hc⟩ := hmem
  set ij := (empty_cells n b).getD (pick % (empty_cells n b).length) (0, 0) with hij
  have hib : ij.1 < b.length := by rw [hwf.1]; exact hi
  have hjr : ij.2 < (b.getD ij.1 []).length := by
    rw [board_wf_getD_length hwf hi]; exact hj
  have hrow : (b.set ij.1 ((b.getD ij.1 []).set ij.2 (if tile4 then 4 else 2))).getD ij.1 [] =
      (b.getD ij.1 []).set ij.2 (if tile4 then 4 else 2) := by
    rw [List.getD_eq_getElem _ _ (by simpa using hib)]
    exact List.getElem_set_self _
  have hcell : cell (set_cell b ij.1 ij.2 (if tile4 then 4 else 2)) ij.1 ij.2 =
      (if tile4 then 4 else 2) := by
    unfold cell set_cell
    rw [hrow, List.getD_eq_getElem _ _ (by simpa using hjr)]
    exact List.getElem_set_self _
  rw [heq, hc] at hcell
  split_ifs at hcell

end Game2048
namespace NTuple

open Game2048

theorem pattern_go_eq (maxp : Nat) (board : List (List Nat)) :
    ∀ (coords : List (Nat × Nat)) (i acc : Nat),
    pattern_go maxp board coords i acc =
      acc + ((List.enumFrom i coords).map fun p =>
        tile_power (cell board p.2.1 p.2.2) * maxp ^ p.1).sum
  | [], i, acc => by simp [pattern_go]
  | rc :: rest, i, acc => by
    rw [pattern_go, pattern_go_eq maxp board rest (i + 1)]
    simp [List.enumFrom]
    omega

theorem get_pattern_index_lsb (maxp : Nat) (board : List (List Nat))
    (coords : List (Nat × Nat)) :
    get_pattern_index maxp board coords = Spec.pattern_index_lsb maxp board coords := by
  rw [get_pattern_index, pattern_go_eq maxp board coords 0 0, Nat.zero_add]
  rw [Spec.pattern_index_lsb, Spec.pattern_digits, List.enum_map, List.map_map]
  rfl

end NTuple
open Game2048 NTuple Train

/-- C6: `merge_row_left` removes zeros preserving order, merges adjacent equal
nonzero pairs left-to-right into double their value added to the score gain
(each tile merging at most once per move), and pads with zeros to length N:
`[2,2,0,0] ↦ ([4,0,0,0], 4)`, `[4,4,8,8] ↦ ([8,16,0,0], 24)`, and
`[2,0,2,2] ↦ ([4,2,0,0], 4)` with no chained merge of the fresh tile. -/
theorem claim_C6 :
    merge_row_left 4 [2, 2, 0, 0] = ([4, 0, 0, 0], 4) ∧
    merge_row_left 4 [4, 4, 8, 8] = ([8, 16, 0, 0], 24) ∧
    merge_row_left 4 [2, 0, 2, 2] = ([4, 2, 0, 0], 4) := by decide

/-- C10: on a full-length input row, `merge_row_left` returns exactly
`board_size` cells whose tile-value sum equals the input's sum, and the score
gain is the sum of the values of the tiles the merges created (hence
nonnegative, the gain being a natural number). -/
theorem claim_C10 (n : Nat) (row : List Nat) (h : row.length = n) :
    (merge_row_left n row).1.length = n ∧
    (merge_row_left n row).1.sum = row.sum ∧
    (merge_row_left n row).2 = (Spec.merged_tiles (row.filter (fun i => i != 0))).sum :=
  ⟨merge_row_left_length n row (le_of_eq h), merge_row_left_sum n row,
    merge_row_left_gain_merged n row⟩

/-- Witness for C10 at the concrete row `[2,2,0,0]` with `board_size = 4`. -/
theorem claim_C10_witness :
    ([2, 2, 0, 0] : List Nat).length = 4 ∧
    ((merge_row_left 4 [2, 2, 0, 0]).1.length = 4 ∧
     (merge_row_left 4 [2, 2, 0, 0]).1.sum = ([2, 2, 0, 0] : List Nat).sum ∧
     (merge_row_left 4 [2, 2, 0, 0]).2 =
       (Spec.merged_tiles (([2, 2, 0, 0] : List Nat).filter (fun i => i != 0))).sum) :=
  ⟨by decide, claim_C10 4 [2, 2, 0, 0] (by decide)⟩

/-- C2 fails as stated: `get_pattern_index` multiplies the FIRST coordinate's
exponent by `max_power ^ 0`, so on the board whose only tile is a 4 at the
origin and the tuple `[(0,0), (0,1)]` it returns 2, not the
most-significant-digit-first value 32. -/
theorem claim_C2_counterexample :
    get_pattern_index 16 Spec.P4 [(0, 0), (0, 1)] ≠
      Spec.pattern_index_msb 16 Spec.P4 [(0, 0), (0, 1)] := by decide

/-- C2 (amended): `get_pattern_index` is the mixed-radix number with radix
`max_power` whose digits are the tile exponents at the tuple's coordinates
with the LEAST significant digit first in tuple order — the first
coordinate's exponent is multiplied by `max_power ^ 0`. -/
theorem claim_C2_amended (maxp : Nat) (board : List (List Nat))
    (coords : List (Nat × Nat)) :
    get_pattern_index maxp board coords = Spec.pattern_index_lsb maxp board coords :=
  get_pattern_index_lsb maxp board coords

/-- C3 fails as stated: `make_move` on a direction outside the four strings
raises nothing — it falls through every branch and returns the unchanged
state with `false`. -/
theorem claim_C3_counterexample :
    make_move Spec.g0 "diagonal" 0 false = (Spec.g0, false) := by decide

/-- C3 (amended): a direction outside {up, down, left, right} is silently
ignored — `make_move` returns `false` and leaves the board and the score
unchanged (no exception; only the terminal flag is re-derived as after any
call). -/
theorem claim_C3_amended (g : GameState) (d : String) (pick : Nat) (tile4 : Bool)
    (hd : d ∉ (["up", "down", "left", "right"] : List String)) :
    (make_move g d pick tile4).1.board = g.board ∧
    (make_move g d pick tile4).1.score = g.score ∧
    (make_move g d pick tile4).2 = false := by
  simp only [List.mem_cons, List.not_mem_nil, or_false, not_or] at hd
  obtain ⟨h1, h2, h3, h4⟩ := hd
  have hmv : move_board g.board_size d g.board = (g.board, 0) := by
    unfold move_board
    rw [if_neg h3, if_neg h4, if_neg h1, if_neg h2]
  unfold make_move
  by_cases hgo : g.game_over = true
  · simp [hgo]
  · simp [hgo, hmv]

/-- Witness for C3 (amended) at the concrete direction `"diagonal"`. -/
theorem claim_C3_witness :
    ("diagonal" ∉ (["up", "down", "left", "right"] : List String)) ∧
    ((make_move Spec.g0 "diagonal" 0 false).1.board = Spec.g0.board ∧
     (make_move Spec.g0 "diagonal" 0 false).1.score = Spec.g0.score ∧
     (make_move Spec.g0 "diagonal" 0 false).2 = false) :=
  ⟨by decide, claim_C3_amended Spec.g0 "diagonal" 0 false (by decide)⟩

/-- C9: resume parses episode numbers from the checkpoint basenames, skipping
any name containing "final" and any unparseable name, selects the maximum
(10000 here, not the excluded 99999 of the final-like file), and trains
exactly requested − resumed episodes (10000 of 20000), or none at all when
the remainder is ≤ 0 (requesting 8000). An empty store yields `(none, 0)`. -/
theorem claim_C9 :
    find_latest_checkpoint Spec.files9 = (some "ntuple_weights_10000.pkl", 10000) ∧
    run_training_episode_count 20000 true Spec.files9 = 10000 ∧
    run_training_episode_count 8000 true Spec.files9 = 0 ∧
    find_latest_checkpoint [] = (none, 0) := by decide

/-- C7: the reward used by the TD step equals
`(scoreAfter − scoreBefore) + (maxTile(afterstate) if it strictly exceeds
maxTile(previous board) else 0) + 10 × emptyCells(afterstate)`, and the
score-delta term is always 0 because `TDLearner.train` passes the same
not-yet-updated `self.game.score` as both arguments. -/
theorem claim_C7 (score : Nat) (prev_afterstate best_afterstate : List (List Nat)) :
    train_reward score prev_afterstate best_afterstate =
      ((score : Int) - (score : Int)) +
      (if board_max prev_afterstate < board_max best_afterstate
        then (board_max best_afterstate : Int) else 0) +
      10 * (count_empty best_afterstate : Int) ∧
    (score : Int) - (score : Int) = 0 := by
  unfold train_reward get_reward
  dsimp only
  constructor
  · split_ifs <;> omega
  · omega
open Game2048 NTuple Train

/-- C8: one TD UPDATE step changes, for each tuple, exactly the weight entry
at the previous afterstate's pattern index — by `alpha * tdError` with
`tdError = reward + gamma * bestValue - prevValue` — and leaves every other
entry of every table unchanged (the number of tables is also unchanged). -/
theorem claim_C8 (net : NTupleNetwork) (alpha gamma : ℚ) (score : Nat)
    (prev_afterstate best_afterstate : List (List Nat)) (prev_value best_value : ℚ)
    (hw : net.weights.length = net.tuples.length) :
    (td_update_step net alpha gamma score prev_afterstate best_afterstate
      prev_value best_value).weights.length = net.weights.length ∧
    ∀ t, t < net.tuples.length → ∀ p : Nat,
      ((td_update_step net alpha gamma score prev_afterstate best_afterstate
        prev_value best_value).weights.getD t fun _ => 0) p =
        if p = get_pattern_index net.max_power prev_afterstate (net.tuples.getD t []) then
          (net.weights.getD t fun _ => 0) p
            + alpha * ((train_reward score prev_afterstate best_afterstate : ℚ)
              + gamma * best_value - prev_value)
        else (net.weights.getD t fun _ => 0) p := by
  constructor
  · simp [td_update_step, hw]
  · intro t ht p
    unfold td_update_step
    dsimp only
    rw [List.getD_eq_getElem _ _ (by simpa using ht), List.getElem_map, List.getElem_range]

/-- Witness for C8 on a one-tuple network with `alpha = 1`, `gamma = 0`,
previous afterstate `P4` (pattern index 2 for the tuple `[(0,0)]`). -/
theorem claim_C8_witness :
    Spec.net1.weights.length = Spec.net1.tuples.length ∧
    ((td_update_step Spec.net1 1 0 0 Spec.P4 Spec.P4 0 0).weights.getD 0 fun _ => 0) 2 =
      (if 2 = get_pattern_index Spec.net1.max_power Spec.P4 (Spec.net1.tuples.getD 0 []) then
        (Spec.net1.weights.getD 0 fun _ => 0) 2
          + 1 * ((train_reward 0 Spec.P4 Spec.P4 : ℚ) + 0 * 0 - 0)
      else (Spec.net1.weights.getD 0 fun _ => 0) 2) :=
  ⟨rfl, (claim_C8 Spec.net1 1 0 0 Spec.P4 Spec.P4 0 0 rfl).2 0 (by decide) 2⟩
open Game2048 NTuple Train

/-- C5: `has_valid_moves` is `false` exactly on boards with every cell
nonzero and no two horizontally or vertically adjacent equal values, and on
such boards every direction is a no-op: `make_move` returns `false` and
leaves the board unchanged. -/
theorem claim_C5 (n : Nat) (b : List (List Nat)) (hwf : BoardWF n b) :
    (has_valid_moves n b = false ↔ Spec.dead_board_spec n b) ∧
    (has_valid_moves n b = false →
      ∀ d ∈ (["up", "down", "left", "right"] : List String),
        ∀ (s : Nat) (go : Bool) (pick : Nat) (tile4 : Bool),
          (make_move ⟨n, b, s, go⟩ d pick tile4).2 = false ∧
          (make_move ⟨n, b, s, go⟩ d pick tile4).1.board = b) := by
  refine ⟨hvm_false_iff hwf, ?_⟩
  intro hvm d _ s go pick tile4
  have hdead := (hvm_false_iff hwf).mp hvm
  have hmv := move_board_dead n b hwf hdead d
  unfold make_move
  by_cases hgo : go = true
  · simp [hgo]
  · simp [hgo, hmv]

/-- Witness for C5 at the concrete dead board `DB4` and direction "up". -/
theorem claim_C5_witness :
    BoardWF 4 Spec.DB4 ∧
    (has_valid_moves 4 Spec.DB4 = false ↔ Spec.dead_board_spec 4 Spec.DB4) ∧
    ((make_move ⟨4, Spec.DB4, 0, false⟩ "up" 0 false).2 = false ∧
     (make_move ⟨4, Spec.DB4, 0, false⟩ "up" 0 false).1.board = Spec.DB4) :=
  ⟨by decide, (claim_C5 4 Spec.DB4 (by decide)).1,
   (claim_C5 4 Spec.DB4 (by decide)).2 (by decide) "up" (by decide) 0 false 0 false⟩
open Game2048 NTuple Train

/-- C4 fails as stated: on a dead board paired with a not-yet-set terminal
flag, `make_move` returns `false` yet flips `game_over` to `true` — the
terminal flag is not unchanged. -/
theorem claim_C4_counterexample :
    (make_move ⟨4, Spec.DB4, 0, false⟩ "left" 0 false).2 = false ∧
    (make_move ⟨4, Spec.DB4, 0, false⟩ "left" 0 false).1.game_over = true ∧
    (⟨4, Spec.DB4, 0, false⟩ : GameState).game_over = false := by decide

/-- C4 (amended): whenever `make_move` returns `false` — on any state
whatsoever — the board and the score are unchanged and no tile is spawned
(the result does not even depend on the spawn randomness); the terminal flag
is also unchanged provided the state satisfies the invariant every reachable
state satisfies — the flag is already set, or the board still has a valid
move. Without that proviso the flag may flip to `true`, as the
counterexample shows. -/
theorem claim_C4_amended (g : GameState) (d : String) (pick : Nat) (tile4 : Bool)
    (hfalse : (make_move g d pick tile4).2 = false) :
    ((make_move g d pick tile4).1.board = g.board ∧
     (make_move g d pick tile4).1.score = g.score ∧
     ∀ (pick' : Nat) (tile4' : Bool),
       make_move g d pick' tile4' = make_move g d pick tile4) ∧
    ((g.game_over = true ∨ has_valid_moves g.board_size g.board = true) →
      (make_move g d pick tile4).1 = g) := by
  obtain ⟨n, b, s, go⟩ := g
  unfold make_move at hfalse ⊢
  dsimp only at hfalse ⊢
  by_cases hgo : go = true
  · rw [if_pos hgo] at hfalse ⊢
    refine ⟨⟨rfl, rfl, ?_⟩, fun _ => rfl⟩
    intro pick' tile4'
    rw [if_pos hgo]
  · rw [if_neg hgo] at hfalse ⊢
    dsimp only at hfalse ⊢
    have hb : b = (move_board n d b).1 := by simpa using hfalse
    have hgain := move_board_fix_gain n d b hb.symm
    have hgo' : go = false := by simpa using hgo
    subst hgo'
    rw [← hb, hgain]
    have hch : decide (¬ b = b) = false := by simp
    rw [hch]
    refine ⟨⟨by simp, by simp, ?_⟩, ?_⟩
    · intro pick' tile4'
      simp [← hb, hgain]
    · intro hlive
      have hvm : has_valid_moves n b = true := by
        rcases hlive with h | h
        · exact absurd h (by simp)
        · exact h
      simp [hvm]

/-- Witness for C4 (amended): on the live board `B0`, the "up" move does not
change the board, returns `false`, and leaves the state exactly as it was. -/
theorem claim_C4_witness :
    (make_move Spec.g0 "up" 0 false).2 = false ∧
    (((make_move Spec.g0 "up" 0 false).1.board = Spec.g0.board ∧
      (make_move Spec.g0 "up" 0 false).1.score = Spec.g0.score ∧
      ∀ (pick' : Nat) (tile4' : Bool),
        make_move Spec.g0 "up" pick' tile4' = make_move Spec.g0 "up" 0 false) ∧
     ((Spec.g0.game_over = true ∨
        has_valid_moves Spec.g0.board_size Spec.g0.board = true) →
       (make_move Spec.g0 "up" 0 false).1 = Spec.g0)) :=
  ⟨by decide, claim_C4_amended Spec.g0 "up" 0 false (by decide)⟩
open Game2048 NTuple Train

/-- C1 fails on the code: both `NTupleSolver.get_best_move` and the SELECT
phase of `TDLearner.train` call `game_copy.make_move(move)`, which spawns the
random tile before returning, and then evaluate/store `game_copy.board` — the
POST-spawn board. On `g0` (board `[[2,2,0,0],0,0,0]`), for every spawn
choice, the board `make_move` leaves for "down" differs from the post-merge
pre-spawn afterstate, and the concrete SELECT run stores the post-spawn board
`Bd`, not that afterstate. -/
theorem claim_C1_code_bug :
    (∀ (pick : Nat) (tile4 : Bool),
      (make_move Spec.g0 "down" pick tile4).2 = true ∧
      (make_move Spec.g0 "down" pick tile4).1.board ≠ (move_board 4 "down" Spec.g0.board).1) ∧
    td_select init_network Spec.g0 (fun _ => (0, false)) =
      (some "down", some Spec.Bd, some 750) ∧
    Spec.Bd ≠ (move_board 4 "down" Spec.g0.board).1 := by
  refine ⟨?_, ?_, by decide⟩
  · intro pick tile4
    have hA : (move_board 4 "down" Spec.g0.board).1 =
        [[0, 0, 0, 0], [0, 0, 0, 0], [0, 0, 0, 0], [2, 2, 0, 0]] := by decide
    constructor
    · rfl
    · have hboard : (make_move Spec.g0 "down" pick tile4).1.board =
          add_random_tile 4 [[0, 0, 0, 0], [0, 0, 0, 0], [0, 0, 0, 0], [2, 2, 0, 0]]
            pick tile4 := rfl
      rw [hboard, hA]
      exact add_random_tile_ne (by decide) (by decide) pick tile4
  · have hu : make_move Spec.g0 "up" 0 false = (⟨4, Spec.B0, 0, false⟩, false) := by decide
    have hd : make_move Spec.g0 "down" 0 false = (⟨4, Spec.Bd, 0, false⟩, true) := by decide
    have hl : make_move Spec.g0 "left" 0 false = (⟨4, Spec.Bl, 4, false⟩, true) := by decide
    have hr : make_move Spec.g0 "right" 0 false = (⟨4, Spec.Br, 4, false⟩, true) := by decide
    have vd : evaluate init_network Spec.Bd = 750 := by
      have h1 : count_empty Spec.Bd = 13 := by decide
      have h2 : monotonicity 4 Spec.Bd = 100 := by decide
      have h3 : corner_bonus 4 Spec.Bd = 0 := by decide
      norm_num [evaluate, init_network, create_tuples, List.range_succ, h1, h2, h3]
    have vl : evaluate init_network Spec.Bl = 750 := by
      have h1 : count_empty Spec.Bl = 14 := by decide
      have h2 : monotonicity 4 Spec.Bl = 50 := by decide
      have h3 : corner_bonus 4 Spec.Bl = 0 := by decide
      norm_num [evaluate, init_network, create_tuples, List.range_succ, h1, h2, h3]
    have vr : evaluate init_network Spec.Br = 750 := by
      have h1 : count_empty Spec.Br = 14 := by decide
      have h2 : monotonicity 4 Spec.Br = 50 := by decide
      have h3 : corner_bonus 4 Spec.Br = 0 := by decide
      norm_num [evaluate, init_network, create_tuples, List.range_succ, h1, h2, h3]
    simp only [td_select, List.foldl, hu, hd, hl, hr, vd, vl, vr]
    norm_num
